import Mathlib

/-!
Verification of the status/error model and the attribute store of an
annotated gRPC-Go repository.

The `status` package under verification is a thin wrapper over an internal
status package that is not part of the sources; the internal operations
(`status.New`, `status.FromProto`, `Status.Err`, `Status.Code`, `Status.Proto`)
are modelled from the specification, as marked on each definition.  The
public wrapper functions (`New`, `Newf`, `Error`, `Errorf`, `FromError`,
`Convert`, `Code`, `FromContextError`, `FromProto`) and the attribute store
(`attributes.New`, `Attributes.WithValues`, `Attributes.Value`) are
translated directly from the Go sources.
-/

namespace codes

/-- Go `codes.Code` is `type Code uint32`; modelled as a natural number.
The enumeration members carry the numeric values fixed by the wire
contract (0 = OK upward). -/
abbrev Code := Nat

def OK : Code := 0
def Canceled : Code := 1
def Unknown : Code := 2
def InvalidArgument : Code := 3
def DeadlineExceeded : Code := 4
def NotFound : Code := 5
def AlreadyExists : Code := 6
def PermissionDenied : Code := 7
def ResourceExhausted : Code := 8
def FailedPrecondition : Code := 9
def Aborted : Code := 10
def OutOfRange : Code := 11
def Unimplemented : Code := 12
def Internal : Code := 13
def Unavailable : Code := 14
def DataLoss : Code := 15
def Unauthenticated : Code := 16

/-- Canonical display string of a code, with the fallback for numeric
values outside the declared enumeration. -/
def codeString (c : Code) : String :=
  if c = OK then "OK"
  else if c = Canceled then "Canceled"
  else if c = Unknown then "Unknown"
  else if c = InvalidArgument then "InvalidArgument"
  else if c = DeadlineExceeded then "DeadlineExceeded"
  else if c = NotFound then "NotFound"
  else if c = AlreadyExists then "AlreadyExists"
  else if c = PermissionDenied then "PermissionDenied"
  else if c = ResourceExhausted then "ResourceExhausted"
  else if c = FailedPrecondition then "FailedPrecondition"
  else if c = Aborted then "Aborted"
  else if c = OutOfRange then "OutOfRange"
  else if c = Unimplemented then "Unimplemented"
  else if c = Internal then "Internal"
  else if c = Unavailable then "Unavailable"
  else if c = DataLoss then "DataLoss"
  else if c = Unauthenticated then "Unauthenticated"
  else "Code(" ++ toString c ++ ")"

end codes

/-- An opaque detail payload carried in the `Details` field of the wire
status: a self-describing typed blob.  The core only stores and
round-trips these, never interprets them. -/
structure DetailBlob where
  typeUrl : String
  payload : List Nat
  deriving DecidableEq, Repr

/-- The wire-format status record `spb.Status` (google.rpc.Status):
numeric code, message, and an ordered sequence of opaque detail blobs. -/
structure SpbStatus where
  code : codes.Code
  message : String
  details : List DetailBlob
  deriving DecidableEq, Repr

/-- Modelled from the spec: the internal status type (package
`internal/status`, not under the sources) wraps the wire-format record;
a `Status` is an immutable (code, message, details) value. -/
structure Status where
  s : SpbStatus
  deriving DecidableEq, Repr

/-- Model of a Go `error` value as consumed by this package: either an
error that offers the `GRPCStatus() *Status` retrieval operation
(whatever its concrete dynamic type, recorded in `tag` and never
inspected by the package), carrying the possibly-nil Status that the
operation yields and its `Error()` text; or an arbitrary error offering
only the `Error()` text.  The absence-of-error value `nil` is modelled
as `Option.none` at use sites. -/
inductive GoError where
  | withStatus (tag : String) (st : Option Status) (text : String)
  | plain (tag : String) (text : String)
  deriving DecidableEq, Repr

/-- The `Error()` text of a Go error value. -/
def GoError.text : GoError → String
  | .withStatus _ _ t => t
  | .plain _ t => t

namespace status

/-- Modelled from the spec: `internal/status.New` (not under the sources)
builds a Status with the given code and message and empty details. -/
def internalNew (c : codes.Code) (msg : String) : Status :=
  ⟨⟨c, msg, []⟩⟩

/-- Modelled from the spec: `internal/status.FromProto` (not under the
sources) reconstructs a Status from a wire-format record, wrapping it
verbatim. -/
def internalFromProto (p : SpbStatus) : Status :=
  ⟨p⟩

/-- Modelled from the spec: the internal `(*Status).Proto` wire
projection (not under the sources) returns the wrapped wire record. -/
def Proto (st : Status) : SpbStatus :=
  st.s

/-- Modelled from the spec: the internal `(*Status).Code` accessor (not
under the sources); on the nil pointer it yields `OK`. -/
def CodeOf (st : Option Status) : codes.Code :=
  match st with
  | none => codes.OK
  | some st => st.s.code

/-- The message accessor of a possibly-nil Status; the nil pointer
yields the empty string. -/
def MessageOf (st : Option Status) : String :=
  match st with
  | none => ""
  | some st => st.s.message

/-- Modelled from the spec: the internal `(*Status).Err` conversion (not
under the sources): the nil native-error value when the code is `OK`,
otherwise a present error that carries the Status recoverably through
the `GRPCStatus()` operation and renders the code name and message. -/
def Err (st : Status) : Option GoError :=
  if st.s.code = codes.OK then none
  else some (.withStatus "status.Error"
    (some st)
    ("rpc error: code = " ++ codes.codeString st.s.code ++ " desc = " ++ st.s.message))

/-- `status.New` from the sources: builds a Status via the internal
constructor. -/
def New (c : codes.Code) (msg : String) : Status :=
  internalNew c msg

/-- A shallow model of Go `fmt.Sprintf` on character lists, with string
arguments: each `%s` or `%v` verb consumes the next argument; `%%`
renders a literal percent sign. -/
def sprintfChars : List Char → List String → List Char
  | [], _ => []
  | '%' :: 's' :: rest, a :: args => a.data ++ sprintfChars rest args
  | '%' :: 'v' :: rest, a :: args => a.data ++ sprintfChars rest args
  | '%' :: '%' :: rest, args => '%' :: sprintfChars rest args
  | c :: rest, args => c :: sprintfChars rest args

/-- A shallow model of Go `fmt.Sprintf` with string arguments. -/
def Sprintf (format : String) (args : List String) : String :=
  ⟨sprintfChars format.data args⟩

/-- `status.Newf` from the sources: `New(c, fmt.Sprintf(format, a...))`. -/
def Newf (c : codes.Code) (format : String) (a : List String) : Status :=
  New c (Sprintf format a)

/-- `status.Error` from the sources: `New(c, msg).Err()`. -/
def Error (c : codes.Code) (msg : String) : Option GoError :=
  Err (New c msg)

/-- `status.Errorf` from the sources: `Error(c, fmt.Sprintf(format, a...))`. -/
def Errorf (c : codes.Code) (format : String) (a : List String) : Option GoError :=
  Error c (Sprintf format a)

/-- `status.FromProto` from the sources: delegates to the internal
reconstruction. -/
def FromProto (p : SpbStatus) : Status :=
  internalFromProto p

/-- `status.ErrorProto` from the sources: `FromProto(s).Err()`. -/
def ErrorProto (p : SpbStatus) : Option GoError :=
  Err (FromProto p)

/-- `status.FromError` from the sources: nil yields `(nil, true)`; an
error offering `GRPCStatus()` yields the Status that operation returns
with `true`; any other error yields `(New(Unknown, err.Error()), false)`. -/
def FromError (err : Option GoError) : Option Status × Bool :=
  match err with
  | none => (none, true)
  | some (.withStatus _ st _) => (st, true)
  | some (.plain _ text) => (some (New codes.Unknown text), false)

/-- `status.Convert` from the sources: `FromError` with the flag
discarded. -/
def Convert (err : Option GoError) : Option Status :=
  (FromError err).1

/-- `status.Code` from the sources: `OK` for nil, the embedded code for
an error offering `GRPCStatus()`, `Unknown` otherwise. -/
def Code (err : Option GoError) : codes.Code :=
  match err with
  | none => codes.OK
  | some (.withStatus _ st _) => CodeOf st
  | some (.plain _ _) => codes.Unknown

/-- A context-cancellation signal as consumed by `FromContextError`: the
sentinel `context.DeadlineExceeded`, the sentinel `context.Canceled`, or
any other error value.  The absent signal is `Option.none` at use sites. -/
inductive CtxErr where
  | deadlineExceeded
  | canceled
  | other (e : GoError)
  deriving DecidableEq, Repr

/-- The `Error()` text of a cancellation signal; the sentinel texts are
those of the Go context package. -/
def CtxErr.text : CtxErr → String
  | .deadlineExceeded => "context deadline exceeded"
  | .canceled => "context canceled"
  | .other e => e.text

/-- `status.FromContextError` from the sources: nil maps to nil,
`context.DeadlineExceeded` to a `DeadlineExceeded` status,
`context.Canceled` to a `Canceled` status, anything else to an
`Unknown` status, each carrying the signal text as message. -/
def FromContextError (err : Option CtxErr) : Option Status :=
  match err with
  | none => none
  | some .deadlineExceeded => some (New codes.DeadlineExceeded CtxErr.deadlineExceeded.text)
  | some .canceled => some (New codes.Canceled CtxErr.canceled.text)
  | some (.other e) => some (New codes.Unknown (CtxErr.other e).text)

end status

namespace attributes

/-- A Go `map[interface{}]interface{}` observed through lookups: keys and
values are opaque comparable values, modelled as naturals; a missing key
reads as `none` (Go: the nil interface value). -/
abbrev AttrMap := Nat → Option Nat

/-- The heap of allocated attribute maps: Go maps are mutable reference
values, so attribute values are references into this store and map
allocation is explicit state passing. -/
structure AttrStore where
  maps : List AttrMap

/-- `attributes.Attributes` holds one map reference (`m` field). -/
structure Attributes where
  idx : Nat
  deriving DecidableEq, Repr

/-- Allocate a fresh map in the store (Go `make(map[...]...)` plus the
writes that fill it before the value escapes), returning the grown store
and a reference to the new map. -/
def allocMap (st : AttrStore) (m : AttrMap) : AttrStore × Attributes :=
  (⟨st.maps ++ [m]⟩, ⟨st.maps.length⟩)

/-- Read the map an attribute value references; a dangling reference
reads as the empty map. -/
def readMap (st : AttrStore) (a : Attributes) : AttrMap :=
  match st.maps.get? a.idx with
  | some m => m
  | none => fun _ => none

/-- The loop `for i := 0; i < len(kvs)/2; i++ { m[kvs[i*2]] = kvs[i*2+1] }`:
write the key/value pairs into `m` in argument order, so a later pair
overwrites an earlier write of the same key. -/
def insertPairs (m : AttrMap) : List Nat → AttrMap
  | k :: v :: rest => insertPairs (fun x => if x = k then some v else m x) rest
  | _ => m

/-- `attributes.New` from the sources: panics (modelled as `Except.error`
carrying the panic text) on an odd-length argument list, otherwise
allocates a fresh map and writes the pairs in order. -/
def New (st : AttrStore) (kvs : List Nat) : Except String (AttrStore × Attributes) :=
  if kvs.length % 2 ≠ 0 then
    .error ("attributes.New called with unexpected input: len(kvs) = " ++ toString kvs.length)
  else
    .ok (allocMap st (insertPairs (fun _ => none) kvs))

/-- `(*Attributes).WithValues` from the sources: panics on an odd-length
argument list, otherwise allocates a fresh map, copies the receiver's
entries into it, then writes the argument pairs in order. -/
def WithValues (st : AttrStore) (a : Attributes) (kvs : List Nat) :
    Except String (AttrStore × Attributes) :=
  if kvs.length % 2 ≠ 0 then
    .error ("attributes.New called with unexpected input: len(kvs) = " ++ toString kvs.length)
  else
    .ok (allocMap st (insertPairs (readMap st a) kvs))

/-- `(*Attributes).Value` from the sources: `a.m[key]`. -/
def Value (st : AttrStore) (a : Attributes) (key : Nat) : Option Nat :=
  readMap st a key

/-- Whether a call returned normally (`.ok`) rather than panicking. -/
def returnsOk (r : Except String (AttrStore × Attributes)) : Bool :=
  match r with
  | .ok _ => true
  | .error _ => false

/-- Last-occurrence lookup over a flat key/value argument list: the value
of the latest pair whose key matches, if any. -/
def lookupPairs : List Nat → Nat → Option Nat
  | k :: v :: rest, x =>
      match lookupPairs rest x with
      | some w => some w
      | none => if x = k then some v else none
  | _, _ => none

end attributes

/-- A sample one-entry attribute heap used to instantiate the universally
quantified attribute-store theorems at a concrete input. -/
def sampleStore : attributes.AttrStore :=
  ⟨[fun x => if x = 1 then some 2 else none]⟩

theorem insertPairs_lookup (m : attributes.AttrMap) (kvs : List Nat) (key : Nat) :
    attributes.insertPairs m kvs key =
      match attributes.lookupPairs kvs key with
      | some v => some v
      | none => m key := by
  match kvs with
  | [] => rfl
  | [k] => rfl
  | k :: v :: rest =>
      have ih := insertPairs_lookup (fun x => if x = k then some v else m x) rest key
      simp only [attributes.insertPairs, attributes.lookupPairs]
      rw [ih]
      cases attributes.lookupPairs rest key <;> simp
      by_cases h : key = k <;> simp [h]

theorem lookupPairs_append (l1 l2 : List Nat) (h : l1.length % 2 = 0) (x : Nat) :
    attributes.lookupPairs (l1 ++ l2) x =
      match attributes.lookupPairs l2 x with
      | some w => some w
      | none => attributes.lookupPairs l1 x := by
  match l1 with
  | [] =>
      simp only [List.nil_append, attributes.lookupPairs]
      cases attributes.lookupPairs l2 x <;> rfl
  | [k] => simp at h
  | k :: v :: rest =>
      have h2 : rest.length % 2 = 0 := by simp at h; omega
      have ih := lookupPairs_append rest l2 h2 x
      simp only [List.cons_append, List.append_eq, attributes.lookupPairs]
      rw [ih]
      cases attributes.lookupPairs l2 x <;> cases attributes.lookupPairs rest x <;> simp

theorem Value_allocMap (st : attributes.AttrStore) (m : attributes.AttrMap) (key : Nat) :
    attributes.Value (attributes.allocMap st m).1 (attributes.allocMap st m).2 key = m key := by
  simp [attributes.Value, attributes.readMap, attributes.allocMap,
    List.get?_eq_getElem?, List.getElem?_concat_length]

theorem Value_allocMap_old (st : attributes.AttrStore) (m : attributes.AttrMap)
    (a : attributes.Attributes) (hlt : a.idx < st.maps.length) (key : Nat) :
    attributes.Value (attributes.allocMap st m).1 a key = attributes.Value st a key := by
  simp [attributes.Value, attributes.readMap, attributes.allocMap,
    List.get?_eq_getElem?, List.getElem?_append_left hlt]

/-- Claim C1: for every Status s, the conversion Status to native error
(`Error` / `Err`) yields the nil error value iff `s.code == OK`, and every
other code yields a present error; and `FromError nil` returns a status
whose observable code is `OK` (the nil Status, whose `Code()` is `OK`)
together with `true`. -/
theorem C1_ok_bijection :
    (∀ st : Status, status.Err st = none ↔ st.s.code = codes.OK) ∧
    (∀ (c : codes.Code) (msg : String), status.Error c msg = none ↔ c = codes.OK) ∧
    status.CodeOf (status.FromError none).1 = codes.OK ∧
    (status.FromError none).2 = true := by
  refine ⟨fun st => ?_, fun c msg => ?_, rfl, rfl⟩
  · simp only [status.Err]
    split <;> simp_all
  · simp only [status.Error, status.Err, status.New, status.internalNew]
    split <;> simp_all

/-- Claim C2: reconstructing a Status from its wire projection yields an
equal Status: `FromProto (Proto s) = s`, where Status equality compares
code, message, and the ordered detail sequence by payload equality. -/
theorem C2_wire_round_trip :
    ∀ st : Status, status.FromProto (status.Proto st) = st :=
  fun _ => rfl

/-- Claim C3: capability extraction is type-agnostic: for every non-nil
error value that offers `GRPCStatus()` — whatever its concrete dynamic
type `tag` and error text — `FromError` returns exactly the Status that
operation yields, paired with `true`. -/
theorem C3_capability_extraction :
    ∀ (tag : String) (st : Option Status) (text : String),
      status.FromError (some (.withStatus tag st text)) = (st, true) :=
  fun _ _ _ => rfl

/-- Claim C4: for every non-nil error value not offering the retrieval
operation, `FromError` returns `(New(Unknown, err.Error()), false)`; in
particular an arbitrary error with text "boom" yields a status with code
`Unknown`, message "boom", and the flag `false`. -/
theorem C4_unknown_fallback :
    (∀ (tag text : String), status.FromError (some (.plain tag text)) =
        (some (status.New codes.Unknown text), false)) ∧
    status.CodeOf (status.FromError (some (.plain "errorString" "boom"))).1 = codes.Unknown ∧
    status.MessageOf (status.FromError (some (.plain "errorString" "boom"))).1 = "boom" ∧
    (status.FromError (some (.plain "errorString" "boom"))).2 = false :=
  ⟨fun _ _ => rfl, rfl, rfl, rfl⟩

/-- Claim C5: `FromContextError` maps the nil signal to the nil Status,
`context.DeadlineExceeded` to a `DeadlineExceeded` status carrying the
signal text, `context.Canceled` to a `Canceled` status carrying the
signal text, and any other non-nil signal to an `Unknown` status
carrying the signal text. -/
theorem C5_cancellation_mapping :
    status.FromContextError none = none ∧
    status.FromContextError (some .deadlineExceeded) =
      some (status.New codes.DeadlineExceeded status.CtxErr.deadlineExceeded.text) ∧
    status.FromContextError (some .canceled) =
      some (status.New codes.Canceled status.CtxErr.canceled.text) ∧
    (∀ e : GoError, status.FromContextError (some (.other e)) =
      some (status.New codes.Unknown e.text)) :=
  ⟨rfl, rfl, rfl, fun _ => rfl⟩

/-- Claim C6: `Code` is a total function of its input (it is a total Lean
definition, hence defined and non-crashing on every error value) that
returns `OK` on nil, the embedded Status code when the error offers
`GRPCStatus()` (the nil embedded Status reading as `OK`), and `Unknown`
on every other error. -/
theorem C6_code_total :
    status.Code none = codes.OK ∧
    (∀ (tag : String) (st : Option Status) (text : String),
      status.Code (some (.withStatus tag st text)) = status.CodeOf st) ∧
    (∀ (tag text : String), status.Code (some (.plain tag text)) = codes.Unknown) :=
  ⟨rfl, fun _ _ _ => rfl, fun _ _ => rfl⟩

/-- Claim C7: `Newf c format a` equals `New c (Sprintf format a)` with no
additional semantics, and in particular
`Newf InvalidArgument "bad field %s" ["x"]` has message "bad field x". -/
theorem C7_formatting_stability :
    (∀ (c : codes.Code) (format : String) (a : List String),
      status.Newf c format a = status.New c (status.Sprintf format a)) ∧
    (status.Newf codes.InvalidArgument "bad field %s" ["x"]).s.message = "bad field x" :=
  ⟨fun _ _ _ => rfl, by decide⟩

/-- Claim C8: caller misuse fails loudly: for every argument list `kvs` of
odd length, `attributes.New kvs` and `Attributes.WithValues kvs` panic
(modelled as returning the panic error instead of a value) immediately at
the call site, and for every even-length `kvs` they return normally. -/
theorem C8_odd_length_panics :
    ∀ (st : attributes.AttrStore) (a : attributes.Attributes) (kvs : List Nat),
      attributes.returnsOk (attributes.New st kvs) = decide (kvs.length % 2 = 0) ∧
      attributes.returnsOk (attributes.WithValues st a kvs) = decide (kvs.length % 2 = 0) := by
  intro st a kvs
  by_cases h : kvs.length % 2 = 0 <;>
    simp [attributes.New, attributes.WithValues, attributes.returnsOk, h]

/-- Claim C9: derivation does not mutate the receiver: for every allocated
Attributes `a` and even-length `kvs`, `a.WithValues kvs` returns normally
with a new Attributes value distinct from `a`, and every key observation
on `a` through `Value` reads the same in the resulting heap as before. -/
theorem C9_withvalues_no_mutation :
    ∀ (st : attributes.AttrStore) (a : attributes.Attributes) (kvs : List Nat),
      a.idx < st.maps.length → kvs.length % 2 = 0 →
      ∃ stn n, attributes.WithValues st a kvs = .ok (stn, n) ∧ n ≠ a ∧
        ∀ key, attributes.Value stn a key = attributes.Value st a key := by
  intro st a kvs ha hk
  refine ⟨(attributes.allocMap st (attributes.insertPairs (attributes.readMap st a) kvs)).1,
          (attributes.allocMap st (attributes.insertPairs (attributes.readMap st a) kvs)).2,
          ?_, ?_, ?_⟩
  · simp [attributes.WithValues, hk]
  · intro he
    have hidx : st.maps.length = a.idx := congrArg attributes.Attributes.idx he
    omega
  · intro key
    exact Value_allocMap_old st _ a ha key

/-- Claim C9 witness: instantiating the frame theorem on a concrete
one-map heap with the even-length argument list `[3, 4]`. -/
theorem C9_withvalues_no_mutation_witness :
    (attributes.Attributes.mk 0).idx < sampleStore.maps.length ∧
    ([3, 4] : List Nat).length % 2 = 0 ∧
    ∃ stn n, attributes.WithValues sampleStore ⟨0⟩ [3, 4] = .ok (stn, n) ∧
      n ≠ (⟨0⟩ : attributes.Attributes) ∧
      ∀ key, attributes.Value stn ⟨0⟩ key = attributes.Value sampleStore ⟨0⟩ key :=
  ⟨by simp [sampleStore], by decide,
    C9_withvalues_no_mutation sampleStore ⟨0⟩ [3, 4] (by simp [sampleStore]) (by decide)⟩

/-- Claim C10: ordered overwrite: pairs are written in argument order, so
the value returned by `Value key` after `New kvs` is the last value bound
to `key` in `kvs` (`lookupPairs`, whose result is the latest matching
pair); after `a.WithValues kvs` it is the last value bound to `key` in
`kvs` when present, and `a`'s own observation otherwise; and appending a
later pair for `key` to any even-length `kvs` makes that later value the
one looked up. -/
theorem C10_ordered_overwrite :
    ∀ (st : attributes.AttrStore) (a : attributes.Attributes) (kvs : List Nat) (key : Nat),
      kvs.length % 2 = 0 →
      (∀ stn n, attributes.New st kvs = .ok (stn, n) →
        attributes.Value stn n key = attributes.lookupPairs kvs key) ∧
      (∀ stn n, attributes.WithValues st a kvs = .ok (stn, n) →
        attributes.Value stn n key =
          match attributes.lookupPairs kvs key with
          | some v => some v
          | none => attributes.Value st a key) ∧
      (∀ v, attributes.lookupPairs (kvs ++ [key, v]) key = some v) := by
  intro st a kvs key hk
  refine ⟨?_, ?_, ?_⟩
  · intro stn n hok
    simp only [attributes.New, if_neg (by omega : ¬ kvs.length % 2 ≠ 0)] at hok
    obtain ⟨h1, h2⟩ := Prod.mk.injEq .. ▸ (Except.ok.injEq .. ▸ hok)
    have hv : attributes.Value stn n key =
        attributes.insertPairs (fun _ => none) kvs key := by
      rw [← h1, ← h2]; exact Value_allocMap st _ key
    rw [hv, insertPairs_lookup]
    cases attributes.lookupPairs kvs key <;> rfl
  · intro stn n hok
    simp only [attributes.WithValues, if_neg (by omega : ¬ kvs.length % 2 ≠ 0)] at hok
    obtain ⟨h1, h2⟩ := Prod.mk.injEq .. ▸ (Except.ok.injEq .. ▸ hok)
    have hv : attributes.Value stn n key =
        attributes.insertPairs (attributes.readMap st a) kvs key := by
      rw [← h1, ← h2]; exact Value_allocMap st _ key
    rw [hv, insertPairs_lookup]
    rfl
  · intro v
    rw [lookupPairs_append kvs [key, v] hk key]
    simp [attributes.lookupPairs]

/-- Claim C10 witness: instantiating the ordered-overwrite theorem on a
concrete heap with the duplicate-key argument list `[1, 7, 1, 9]` at
key 1. -/
theorem C10_ordered_overwrite_witness :
    ([1, 7, 1, 9] : List Nat).length % 2 = 0 ∧
    ((∀ stn n, attributes.New sampleStore [1, 7, 1, 9] = .ok (stn, n) →
        attributes.Value stn n 1 = attributes.lookupPairs [1, 7, 1, 9] 1) ∧
     (∀ stn n, attributes.WithValues sampleStore ⟨0⟩ [1, 7, 1, 9] = .ok (stn, n) →
        attributes.Value stn n 1 =
          match attributes.lookupPairs [1, 7, 1, 9] 1 with
          | some v => some v
          | none => attributes.Value sampleStore ⟨0⟩ 1) ∧
     (∀ v, attributes.lookupPairs ([1, 7, 1, 9] ++ [1, v]) 1 = some v)) :=
  ⟨by decide, C10_ordered_overwrite sampleStore ⟨0⟩ [1, 7, 1, 9] 1 (by decide)⟩
